import Mathlib

/-!
Verification development for the `checksum_layer` of the network-marshalling
protocol stack (`nil::marshalling::protocol::checksum_layer`).

The layer is embedded shallowly:

* a byte buffer is a `List Nat` (each entry a byte value), an iterator is an
  index into that list, and `size` arguments are passed explicitly;
* the checksum field is the fixed-width big-endian unsigned-integer field of
  width `W = field_type::min_length() = field_type::max_length()`; its
  `value_type` cast (`static_cast<FieldValueType>`) is `% 256 ^ W`;
* the inner (wrapped) layer chain is a function parameter, mirroring the
  `TNextLayerReader` / `TNextLayerWriter` / `TNextLayerUpdater` objects; the
  embedding additionally records how many times and with which size budget the
  inner chain was invoked, so that the ordering guarantees of the two read
  policies are stateable;
* the checksum calculator `TCalc` is a function parameter `calc`.
-/

namespace Marshalling

/-- `nil::marshalling::status_type` values used by the layer. -/
inductive status_type where
  | success
  | not_enough_data
  | protocol_error
  | buffer_overflow
  | update_required
deriving DecidableEq, Repr

/-- Big-endian decode of `n` bytes of `buf` starting at index `pos`
(missing positions read as `0`, matching the precondition that the iterator
is dereferenceable). -/
def beDecode : List Nat → Nat → Nat → Nat
  | _, _, 0 => 0
  | buf, pos, Nat.succ n => buf.getD pos 0 * 256 ^ n + beDecode buf (pos + 1) n

/-- Big-endian encoding of value `v` on `n` bytes. -/
def beBytes : Nat → Nat → List Nat
  | 0, _ => []
  | Nat.succ n, v => v / 256 ^ n % 256 :: beBytes n v

/-- Overwrite `buf` starting at index `pos` with the bytes `bs`
(random-access iterator write). -/
def writeBytes : List Nat → Nat → List Nat → List Nat
  | buf, _, [] => buf
  | buf, pos, b :: bs => writeBytes (buf.set pos b) (pos + 1) bs

/-- The `n` bytes of `buf` starting at index `pos`. -/
def extract (buf : List Nat) (pos n : Nat) : List Nat :=
  (buf.drop pos).take n

/-- `field.read(iter, avail)` for the fixed-width checksum field: fails with
`not_enough_data` when fewer than `W` bytes are available, otherwise decodes
`W` bytes and advances the iterator.  Returns (status, field value, new
position). -/
def fieldReadBE (W : Nat) (buf : List Nat) (pos avail : Nat) :
    status_type × Nat × Nat :=
  if avail < W then (status_type.not_enough_data, 0, pos)
  else (status_type.success, beDecode buf pos W, pos + W)

/-- `field.write(iter, avail)` for the fixed-width checksum field over a
random-access iterator: fails with `buffer_overflow` when fewer than `W`
bytes remain, otherwise stores the `W` big-endian bytes of the field value
and advances the iterator. -/
def fieldWriteBE (W v : Nat) (buf : List Nat) (pos avail : Nat) :
    status_type × List Nat × Nat :=
  if avail < W then (status_type.buffer_overflow, buf, pos)
  else (status_type.success, writeBytes buf pos (beBytes W v), pos + W)

/-- Modelled from the spec: `reset_message(msg)` of the layer base scaffolding
"restores the message to its default/empty state"; the message populated by
the payload-carrying inner layers is its byte list, so the default state is
the empty list. -/
def reset_msg : List Nat := []

/-- Modelled from the spec: `update_missing_size(field, remaining_size,
out_missing)` of the layer base scaffolding (the base class is not part of the
analysed sources) "computes and writes the minimal number of additional bytes
the caller must supply before retrying — exact, not a lower bound": for the
fixed-width checksum field starved at `remaining` bytes this is
`W - remaining`. -/
def update_missing_size (W remaining : Nat) : Option Nat :=
  some (W - remaining)

/-- Result of one layer-level read: the status, the checksum field object
(an in/out parameter in the source), the message, the final iterator
position, the contents of the `missingSize` output slot (`none` when it was
never written), and the number of times the inner (next-layer) reader was
invoked. -/
structure LayerReadResult where
  status : status_type
  field : Nat
  msg : List Nat
  pos : Nat
  missing : Option Nat
  innerCalls : Nat
deriving DecidableEq, Repr

/-- Result of one inner-chain read: status, populated message, advanced
iterator position, and the `missingSize` slot contents. -/
structure InnerReadResult where
  status : status_type
  msg : List Nat
  pos : Nat
  missing : Option Nat
deriving DecidableEq, Repr

/-- An inner-chain reader: arguments are the buffer, the incoming message,
the iterator position, the size budget, and the incoming `missingSize` slot
contents — mirroring `nextLayerReader.read(msg, iter, size, missingSize)`. -/
abbrev InnerReader :=
  List Nat → List Nat → Nat → Nat → Option Nat → InnerReadResult

/-- `checksum_layer::read_verify` — the default (verify-after-read) policy:
run the inner read over `size - W` bytes first, propagate `not_enough_data` /
`protocol_error` as-is, then read the trailing checksum field, reset the
message on any field-read failure, and finally compare the stored checksum
with the calculator's result over the inner-consumed bytes, resetting the
message and returning `protocol_error` on mismatch. -/
def read_verify (W : Nat) (calcFn : List Nat → Nat) (reader : InnerReader)
    (buf : List Nat) (field0 : Nat) (msg : List Nat) (pos size : Nat)
    (missing : Option Nat) : LayerReadResult :=
  let fromIter := pos
  let r := reader buf msg pos (size - W) missing
  if r.status = status_type.not_enough_data ∨
      r.status = status_type.protocol_error then
    ⟨r.status, field0, r.msg, r.pos, r.missing, 1⟩
  else
    let len := r.pos - fromIter
    let remSize := size - len
    let fr := fieldReadBE W buf r.pos remSize
    let missing1 := if fr.1 = status_type.not_enough_data then
        update_missing_size W remSize else r.missing
    if fr.1 ≠ status_type.success then
      ⟨fr.1, field0, reset_msg, fr.2.2, missing1, 1⟩
    else
      let checksum := calcFn (extract buf fromIter len)
      let expectedValue := fr.2.1
      if expectedValue ≠ checksum % 256 ^ W then
        ⟨status_type.protocol_error, fr.2.1, reset_msg, fr.2.2, missing1, 1⟩
      else
        ⟨r.status, fr.2.1, r.msg, fr.2.2, missing1, 1⟩

/-- `checksum_layer::verify_read` — the verify-before-read policy: read the
checksum field from the tail of the `size`-byte region, compare it with the
calculator's result over the leading `size - W` bytes, and only on a match
invoke the inner read over that leading region; the iterator is re-pointed
past the checksum only on inner success. -/
def verify_read (W : Nat) (calcFn : List Nat → Nat) (reader : InnerReader)
    (buf : List Nat) (field0 : Nat) (msg : List Nat) (pos size : Nat)
    (missing : Option Nat) : LayerReadResult :=
  let fromIter := pos
  let toIter := fromIter + (size - W)
  let fr := fieldReadBE W buf toIter W
  if fr.1 ≠ status_type.success then
    ⟨fr.1, field0, msg, pos, missing, 0⟩
  else
    let checksum := calcFn (extract buf fromIter (size - W))
    let expectedValue := fr.2.1
    if expectedValue ≠ checksum % 256 ^ W then
      ⟨status_type.protocol_error, fr.2.1, reset_msg, pos, missing, 0⟩
    else
      let r := reader buf msg pos (size - W) missing
      if r.status = status_type.success then
        ⟨r.status, fr.2.1, r.msg, fr.2.2, r.missing, 1⟩
      else
        ⟨r.status, fr.2.1, r.msg, r.pos, r.missing, 1⟩

/-- `checksum_layer::eval_read`: fail with `not_enough_data` when fewer than
`field_type::min_length() = W` bytes are available, otherwise dispatch on the
`verify_tag` selected by `checksum_layer_options_parser`
(`has_verify_before_read`). -/
def eval_read (verifyBeforeRead : Bool) (W : Nat) (calcFn : List Nat → Nat)
    (reader : InnerReader) (buf : List Nat) (field0 : Nat) (msg : List Nat)
    (pos size : Nat) (missing : Option Nat) : LayerReadResult :=
  if size < W then
    ⟨status_type.not_enough_data, field0, msg, pos, missing, 0⟩
  else if verifyBeforeRead then
    verify_read W calcFn reader buf field0 msg pos size missing
  else
    read_verify W calcFn reader buf field0 msg pos size missing

/-- Modelled from the spec: the `protocol_layer_base` read wrapper (the base
class is not part of the analysed sources) around `eval_read`, which
guarantees that a `not_enough_data` outcome "carries an exact missing-byte
count": when the layer fails before any sublayer has filled the slot, the
wrapper writes `chain min_length - size` into it; `chainMin` is the summed
minimum length of the whole chain. -/
def read_full (chainMin : Nat) (verifyBeforeRead : Bool) (W : Nat)
    (calcFn : List Nat → Nat) (reader : InnerReader) (buf : List Nat)
    (field0 : Nat) (msg : List Nat) (pos size : Nat) (missing : Option Nat) :
    LayerReadResult :=
  let r := eval_read verifyBeforeRead W calcFn reader buf field0 msg pos size
    missing
  if r.status = status_type.not_enough_data ∧ r.missing = none then
    { r with missing := some (chainMin - size) }
  else r

/-- Result of one layer-level random-access write: status, the checksum
field object, the buffer, and the final iterator position. -/
structure RAWriteResult where
  status : status_type
  field : Nat
  buf : List Nat
  pos : Nat
deriving DecidableEq, Repr

/-- An inner-chain writer over a random-access iterator: arguments are the
buffer, the message, the iterator position and the size budget — mirroring
`nextLayerWriter.write(msg, iter, size)`.  Returns (status, buffer, new
position). -/
abbrev InnerWriterRA :=
  List Nat → List Nat → Nat → Nat → status_type × List Nat × Nat

/-- `checksum_layer::write_internal_random_access`: run the inner write over
the full `size`; propagate any status other than `success` /
`update_required`; check `field_width` bytes of headroom remain
(`buffer_overflow` otherwise); on inner `update_required` write the current
(placeholder) field value and propagate `update_required`; otherwise compute
the checksum over exactly the inner-written bytes, assign it into the field
(with the `value_type` cast) and write the field. -/
def write_internal_random_access (W : Nat) (calcFn : List Nat → Nat)
    (writer : InnerWriterRA) (field0 : Nat) (buf msg : List Nat)
    (pos size : Nat) : RAWriteResult :=
  let fromIter := pos
  let w := writer buf msg pos size
  if w.1 ≠ status_type.success ∧ w.1 ≠ status_type.update_required then
    ⟨w.1, field0, w.2.1, w.2.2⟩
  else
    let len := w.2.2 - fromIter
    let remSize := size - len
    if remSize < W then
      ⟨status_type.buffer_overflow, field0, w.2.1, w.2.2⟩
    else if w.1 = status_type.update_required then
      let fw := fieldWriteBE W field0 w.2.1 w.2.2 remSize
      ⟨status_type.update_required, field0, fw.2.1, fw.2.2⟩
    else
      let checksum := calcFn (extract w.2.1 fromIter len)
      let fv := checksum % 256 ^ W
      let fw := fieldWriteBE W fv w.2.1 w.2.2 remSize
      ⟨fw.1, fv, fw.2.1, fw.2.2⟩

/-- Result of one layer-level sequential (append-only) write: status, the
produced output bytes, and the size budget that was handed to the inner
write (recorded so that the "reserves `field_width` bytes of headroom"
guarantee is stateable). -/
structure SeqWriteResult where
  status : status_type
  out : List Nat
  innerGiven : Nat
deriving DecidableEq, Repr

/-- An inner-chain writer over a sequential (append-only) iterator:
arguments are the message and the size budget; it returns its status and the
bytes it appended. -/
abbrev InnerWriterSeq := List Nat → Nat → status_type × List Nat

/-- `checksum_layer::write_internal_output` — the sequential (append-only)
path: run the inner write over `size - W` bytes (reserving `W` bytes of
headroom), propagate any status other than `success` / `update_required`,
append the current (dummy) field value as placeholder, and return
`update_required` unconditionally. -/
def write_internal_output (W : Nat) (writer : InnerWriterSeq) (field0 : Nat)
    (msg : List Nat) (size : Nat) : SeqWriteResult :=
  let w := writer msg (size - W)
  if w.1 ≠ status_type.success ∧ w.1 ≠ status_type.update_required then
    ⟨w.1, w.2, size - W⟩
  else
    ⟨status_type.update_required, w.2 ++ beBytes W field0, size - W⟩

/-- An inner-chain updater: arguments are the buffer, the iterator position
and the size budget — mirroring `nextLayerUpdater.update(iter, size)`.
Returns (status, buffer, new position). -/
abbrev InnerUpdater := List Nat → Nat → Nat → status_type × List Nat × Nat

/-- `checksum_layer::eval_update`: relay the inner update over
`size - field_type::max_length()` bytes, propagate failure, then compute the
checksum over exactly the inner-updated span, assign it into the field (with
the `value_type` cast) and overwrite the field in place. -/
def eval_update (W : Nat) (calcFn : List Nat → Nat) (updater : InnerUpdater)
    (buf : List Nat) (pos size : Nat) : status_type × List Nat × Nat :=
  let fromIter := pos
  let u := updater buf pos (size - W)
  if u.1 ≠ status_type.success then
    u
  else
    let len := u.2.2 - fromIter
    let remSize := size - len
    let fv := calcFn (extract u.2.1 fromIter len) % 256 ^ W
    fieldWriteBE W fv u.2.1 u.2.2 remSize

/-- Modelled from the spec: the terminal payload layer (`msg_data_layer`,
not part of the analysed sources) "copies all remaining bytes into the
message's payload field on read, and writes the payload's bytes verbatim on
write; cannot fail with `protocol_error`". -/
def payloadReader : InnerReader := fun buf _ pos size missing =>
  ⟨status_type.success, extract buf pos size, pos + size, missing⟩

/-- Modelled from the spec: the terminal payload layer's write over a
random-access iterator — writes the payload's bytes verbatim, failing with
`buffer_overflow` when the budget is smaller than the payload. -/
def payloadWriterRA : InnerWriterRA := fun buf msg pos size =>
  if size < msg.length then (status_type.buffer_overflow, buf, pos)
  else (status_type.success, writeBytes buf pos msg, pos + msg.length)

/-- Modelled from the spec: the terminal payload layer's write over a
sequential iterator — appends the payload's bytes verbatim, failing with
`buffer_overflow` when the budget is smaller than the payload. -/
def payloadWriterSeq : InnerWriterSeq := fun msg size =>
  if size < msg.length then (status_type.buffer_overflow, [])
  else (status_type.success, msg)

/-- Modelled from the spec: the terminal payload layer's update — "in-place
correction" is a no-op for the payload, so it only advances the iterator by
the given size and succeeds. -/
def payloadUpdater : InnerUpdater := fun buf pos size =>
  (status_type.success, buf, pos + size)

/-- Modelled from the spec: an inner layer whose message needs exactly `N`
bytes — when starved it fails with `not_enough_data` and, per the error
taxonomy, "carries an exact missing-byte count" in the `missingSize` slot. -/
def fixedReader (N : Nat) : InnerReader := fun buf msg pos size missing =>
  if size < N then ⟨status_type.not_enough_data, msg, pos, some (N - size)⟩
  else ⟨status_type.success, extract buf pos N, pos + N, missing⟩

/-- Modelled from the spec: the sum-mod-256 checksum calculator of the
scenario ("checksum = sum mod 256", the `basic_sum` calculator over a
one-byte result type). -/
def basic_sum (l : List Nat) : Nat := l.sum % 256

/-- Flip bit `b` of the byte at index `i` of the buffer. -/
def flipBit (buf : List Nat) (i b : Nat) : List Nat :=
  buf.set i (buf.getD i 0 ^^^ 2 ^ b)

/-- The checksum-layer chain over the terminal payload layer, written through
a random-access cursor into a fresh buffer of exactly
`payload length + field width` bytes starting at position 0. -/
def encodeRA (W : Nat) (calcFn : List Nat → Nat) (P : List Nat) :
    RAWriteResult :=
  write_internal_random_access W calcFn payloadWriterRA 0
    (List.replicate (P.length + W) 0) P 0 (P.length + W)

/-! ### Helper lemmas about the byte-buffer primitives -/

theorem length_writeBytes (bs buf : List Nat) (pos : Nat) :
    (writeBytes buf pos bs).length = buf.length := by
  induction bs generalizing buf pos with
  | nil => rfl
  | cons b bs ih => simp [writeBytes, ih]

theorem writeBytes_eq (bs buf : List Nat) (pos : Nat)
    (h : pos + bs.length ≤ buf.length) :
    writeBytes buf pos bs = buf.take pos ++ bs ++ buf.drop (pos + bs.length) := by
  induction bs generalizing buf pos with
  | nil => simp [writeBytes]
  | cons b bs ih =>
    have hpos : pos < buf.length := by simp at h; omega
    have hstep : pos + 1 + bs.length ≤ (buf.set pos b).length := by
      simp at h ⊢; omega
    have hidx : pos + (b :: bs).length = pos + 1 + bs.length := by
      simp; omega
    rw [hidx, writeBytes, ih (buf.set pos b) (pos + 1) hstep,
      List.set_eq_take_cons_drop b hpos]
    have hlen : (buf.take pos).length = pos := by
      simp [Nat.le_of_lt hpos]
    rw [List.take_append_eq_append_take, List.drop_append_eq_append_drop, hlen]
    have h1 : (buf.take pos).take (pos + 1) = buf.take pos := by
      apply List.take_of_length_le; omega
    have h2 : (buf.take pos).drop (pos + 1 + bs.length) = [] := by
      apply List.drop_eq_nil_of_le; omega
    have h3 : pos + 1 - pos = 1 := by omega
    have h4 : pos + 1 + bs.length - pos = 1 + bs.length := by omega
    have h5 : (b :: buf.drop (pos + 1)).drop (1 + bs.length)
        = buf.drop (pos + 1 + bs.length) := by
      have h6 : (1 : Nat) + bs.length = bs.length + 1 := by omega
      rw [h6, List.drop_succ_cons, List.drop_drop]
    rw [h1, h2, h3, h4, h5]
    simp only [List.take_succ_cons, List.take_zero, List.append_nil,
      List.append_assoc, List.cons_append, List.nil_append]

theorem length_beBytes (n v : Nat) : (beBytes n v).length = n := by
  induction n generalizing v with
  | zero => rfl
  | succ n ih => simp [beBytes, ih]

theorem beDecode_cons (x : Nat) (l : List Nat) (p n : Nat) :
    beDecode (x :: l) (p + 1) n = beDecode l p n := by
  induction n generalizing p with
  | zero => rfl
  | succ n ih => simp [beDecode, ih]

theorem beDecode_append (A l : List Nat) (n : Nat) :
    beDecode (A ++ l) A.length n = beDecode l 0 n := by
  induction A with
  | nil => rfl
  | cons a A ih =>
    have : (a :: A).length = A.length + 1 := rfl
    rw [this, List.cons_append, beDecode_cons, ih]

theorem beDecode_beBytes (n v : Nat) : beDecode (beBytes n v) 0 n = v % 256 ^ n := by
  induction n generalizing v with
  | zero => simp [beBytes, beDecode, Nat.mod_one]
  | succ n ih =>
    show beDecode (v / 256 ^ n % 256 :: beBytes n v) 0 (n + 1) = v % 256 ^ (n + 1)
    rw [beDecode]
    have h0 : (v / 256 ^ n % 256 :: beBytes n v).getD 0 0 = v / 256 ^ n % 256 := rfl
    rw [h0, show (0 : Nat) + 1 = 0 + 1 from rfl, beDecode_cons, ih]
    have hpow : (256 : Nat) ^ (n + 1) = 256 ^ n * 256 := by ring
    rw [hpow, Nat.mod_mul]
    ring

theorem sum_set_add (l : List Nat) (i v : Nat) (h : i < l.length) :
    (l.set i v).sum + l.getD i 0 = l.sum + v := by
  induction l generalizing i with
  | nil => simp at h
  | cons a l ih =>
    cases i with
    | zero => simp [List.sum_cons]; omega
    | succ i =>
      have h' : i < l.length := by simpa using h
      have hih := ih i h'
      simp only [List.set_cons_succ, List.sum_cons, List.getD_cons_succ]
      omega

theorem xor_two_pow_ne (x b : Nat) : x ^^^ 2 ^ b ≠ x := by
  intro hEq
  have h2 : x ^^^ (x ^^^ 2 ^ b) = x ^^^ x := congrArg (fun y => x ^^^ y) hEq
  rw [Nat.xor_cancel_left, Nat.xor_self] at h2
  have hpos := Nat.two_pow_pos b
  omega

theorem extract_append_left (A B : List Nat) : extract (A ++ B) 0 A.length = A := by
  simp [extract, List.take_left]

theorem writeBytes_tail (P T bs : List Nat) (hT : T.length = bs.length) :
    writeBytes (P ++ T) P.length bs = P ++ bs := by
  rw [writeBytes_eq _ _ _ (by simp [hT])]
  have h1 : (P ++ T).take P.length = P := List.take_left P T
  have h2 : (P ++ T).drop (P.length + bs.length) = [] :=
    List.drop_eq_nil_of_le (by simp [hT])
  rw [h1, h2, List.append_nil]

/-- The single-pass random-access write of payload `P` through the checksum
layer succeeds, leaves the field holding `calcFn P` cast to the field value
type, and produces the buffer `P ++ beBytes W (calcFn P % 256 ^ W)`. -/
theorem encodeRA_eq (W : Nat) (calcFn : List Nat → Nat) (P : List Nat) :
    encodeRA W calcFn P =
      ⟨status_type.success, calcFn P % 256 ^ W,
        P ++ beBytes W (calcFn P % 256 ^ W), P.length + W⟩ := by
  have h0 : ¬ P.length + W < P.length := by omega
  have hbuf : writeBytes (List.replicate (P.length + W) 0) 0 P
      = P ++ List.replicate W 0 := by
    rw [writeBytes_eq P _ 0 (by simp)]
    simp
  have hx : extract (P ++ List.replicate W 0) 0 P.length = P :=
    extract_append_left _ _
  have hw : writeBytes (P ++ List.replicate W 0) P.length
      (beBytes W (calcFn P % 256 ^ W))
      = P ++ beBytes W (calcFn P % 256 ^ W) :=
    writeBytes_tail _ _ _ (by simp [length_beBytes])
  unfold encodeRA write_internal_random_access payloadWriterRA fieldWriteBE
  simp [h0, hbuf, hx, hw, Nat.add_sub_cancel_left]

/-- Verify-after-read on a buffer whose trailing checksum matches: inner
(payload) read succeeds, the field read succeeds, the comparison passes. -/
theorem eval_read_after_match (W : Nat) (calcFn : List Nat → Nat)
    (buf : List Nat) (field0 : Nat) (size : Nat) (hW : W ≤ size)
    (hmatch : beDecode buf (size - W) W =
      calcFn (extract buf 0 (size - W)) % 256 ^ W) :
    eval_read false W calcFn payloadReader buf field0 [] 0 size none =
      ⟨status_type.success, beDecode buf (size - W) W,
        extract buf 0 (size - W), size, none, 1⟩ := by
  have hlt : ¬ size < W := by omega
  have hrem : size - (size - W) = W := by omega
  have hfin : size - W + W = size := by omega
  simp [eval_read, read_verify, payloadReader, fieldReadBE, hlt, hrem, hfin,
    hmatch]

/-- Verify-before-read on a buffer whose trailing checksum matches: the field
read and comparison pass, the inner (payload) read succeeds, and the cursor
is re-pointed past the checksum. -/
theorem eval_read_before_match (W : Nat) (calcFn : List Nat → Nat)
    (buf : List Nat) (field0 : Nat) (size : Nat) (hW : W ≤ size)
    (hmatch : beDecode buf (size - W) W =
      calcFn (extract buf 0 (size - W)) % 256 ^ W) :
    eval_read true W calcFn payloadReader buf field0 [] 0 size none =
      ⟨status_type.success, beDecode buf (size - W) W,
        extract buf 0 (size - W), size, none, 1⟩ := by
  have hlt : ¬ size < W := by omega
  have hfin : size - W + W = size := by omega
  simp [eval_read, verify_read, payloadReader, fieldReadBE, hlt, hfin,
    hmatch]

/-- Verify-after-read on a buffer whose trailing checksum does not match:
inner (payload) read succeeds, the field read succeeds, the comparison
fails, the message is reset and `protocol_error` is returned. -/
theorem eval_read_after_mismatch (W : Nat) (calcFn : List Nat → Nat)
    (buf : List Nat) (field0 : Nat) (size : Nat) (hW : W ≤ size)
    (hmm : beDecode buf (size - W) W ≠
      calcFn (extract buf 0 (size - W)) % 256 ^ W) :
    eval_read false W calcFn payloadReader buf field0 [] 0 size none =
      ⟨status_type.protocol_error, beDecode buf (size - W) W,
        reset_msg, size, none, 1⟩ := by
  have hlt : ¬ size < W := by omega
  have hrem : size - (size - W) = W := by omega
  have hfin : size - W + W = size := by omega
  simp [eval_read, read_verify, payloadReader, fieldReadBE, hlt, hrem, hfin,
    hmm]

/-- The sequential write followed by the explicit update pass produces the
buffer `P ++ beBytes W (calcFn P % 256 ^ W)` with status `success`. -/
theorem seq_write_then_update (W : Nat) (calcFn : List Nat → Nat)
    (P : List Nat) :
    eval_update W calcFn payloadUpdater
        (write_internal_output W payloadWriterSeq 0 P (P.length + W)).out 0
        (P.length + W) =
      (status_type.success, P ++ beBytes W (calcFn P % 256 ^ W),
        P.length + W) := by
  have hout : (write_internal_output W payloadWriterSeq 0 P
      (P.length + W)).out = P ++ beBytes W 0 := by
    simp [write_internal_output, payloadWriterSeq, Nat.add_sub_cancel]
  rw [hout]
  have hx : extract (P ++ beBytes W 0) 0 P.length = P :=
    extract_append_left _ _
  have hw : writeBytes (P ++ beBytes W 0) P.length
      (beBytes W (calcFn P % 256 ^ W))
      = P ++ beBytes W (calcFn P % 256 ^ W) :=
    writeBytes_tail _ _ _ (by simp [length_beBytes])
  simp [eval_update, payloadUpdater, fieldWriteBE, Nat.add_sub_cancel, hx,
    hw]

/-! ### Claim theorems -/

/-- C7: for every write invoked with a sequential (append-only) cursor, the
layer invokes the inner write over `size - W` bytes (the recorded
`innerGiven` budget, reserving `W = field_width` bytes of headroom), appends
the placeholder (current dummy) field value into the checksum field region,
and returns `update_required` whenever the inner write did not itself fail
(it returned `success` or `update_required`), regardless of which of the two
it returned. -/
theorem C7_sequential_write_update_required (W field0 size : Nat)
    (msg : List Nat) (writer : InnerWriterSeq)
    (h : (writer msg (size - W)).1 = status_type.success ∨
      (writer msg (size - W)).1 = status_type.update_required) :
    write_internal_output W writer field0 msg size =
      ⟨status_type.update_required,
        (writer msg (size - W)).2 ++ beBytes W field0, size - W⟩ := by
  unfold write_internal_output
  rcases h with h | h <;> simp [h]

/-- Witness for C7: `W = 1`, payload `[1, 2, 3]`, budget `4` through the
terminal payload layer's sequential writer. -/
theorem C7_sequential_write_update_required_witness :
    ((payloadWriterSeq [1, 2, 3] (4 - 1)).1 = status_type.success ∨
      (payloadWriterSeq [1, 2, 3] (4 - 1)).1 = status_type.update_required) ∧
    write_internal_output 1 payloadWriterSeq 0 [1, 2, 3] 4 =
      ⟨status_type.update_required,
        (payloadWriterSeq [1, 2, 3] (4 - 1)).2 ++ beBytes 1 0, 4 - 1⟩ :=
  ⟨Or.inl (by decide),
    C7_sequential_write_update_required 1 0 4 [1, 2, 3] payloadWriterSeq
      (Or.inl (by decide))⟩

/-- C10: in the default verify-after-read configuration, whenever the inner
read succeeds but reading the trailing checksum field fails (in the model the
field read fails — with the recoverable `not_enough_data` — exactly when
fewer than `W` bytes remain after the inner read), the layer resets the
message to its default state before returning that status and records the
missing size: the reset is not limited to the `protocol_error` path. -/
theorem C10_reset_msg_on_checksum_read_failure (W : Nat)
    (calcFn : List Nat → Nat) (reader : InnerReader) (buf : List Nat)
    (field0 : Nat) (msg : List Nat) (pos size : Nat) (missing : Option Nat)
    (hW : ¬ size < W)
    (hs : (reader buf msg pos (size - W) missing).status = status_type.success)
    (hrem : size - ((reader buf msg pos (size - W) missing).pos - pos) < W) :
    eval_read false W calcFn reader buf field0 msg pos size missing =
      ⟨status_type.not_enough_data, field0, reset_msg,
        (reader buf msg pos (size - W) missing).pos,
        update_missing_size W
          (size - ((reader buf msg pos (size - W) missing).pos - pos)), 1⟩ := by
  simp only [eval_read, if_neg hW, Bool.false_eq_true, if_false]
  simp only [read_verify, hs, fieldReadBE, if_pos hrem]
  simp

/-- Witness for C10: an inner reader that consumes past its budget, leaving
no room for the checksum field. -/
theorem C10_reset_msg_on_checksum_read_failure_witness :
    (¬ (3 : Nat) < 1) ∧
    ((fun (_ : List Nat) (_ : List Nat) (p : Nat) (_ : Nat)
        (_ : Option Nat) =>
        InnerReadResult.mk status_type.success [9] (p + 3) none)
      [1, 2, 3] [] 0 (3 - 1) none).status = status_type.success ∧
    eval_read false 1 basic_sum
      (fun _ _ p _ _ => InnerReadResult.mk status_type.success [9] (p + 3) none)
      [1, 2, 3] 0 [] 0 3 none =
      ⟨status_type.not_enough_data, 0, reset_msg, 3, some 1, 1⟩ :=
  ⟨by decide, by decide,
    C10_reset_msg_on_checksum_read_failure 1 basic_sum
      (fun _ _ p _ _ => InnerReadResult.mk status_type.success [9] (p + 3) none)
      [1, 2, 3] 0 [] 0 3 none (by decide) (by decide) (by decide)⟩

/-- C4: in the verify-before-read configuration, for every input whose stored
checksum (the `W` bytes at offset `size - W`) does not match the calculator's
result over the leading `size - W` bytes, the read resets the message and
returns `protocol_error` with the cursor unmoved and without ever invoking
the inner layer's read (zero inner invocations, for an arbitrary inner
reader). -/
theorem C4_verify_before_read_mismatch (W : Nat) (calcFn : List Nat → Nat)
    (reader : InnerReader) (buf : List Nat) (field0 : Nat) (msg : List Nat)
    (pos size : Nat) (missing : Option Nat) (hW : ¬ size < W)
    (hmm : beDecode buf (pos + (size - W)) W ≠
      calcFn (extract buf pos (size - W)) % 256 ^ W) :
    eval_read true W calcFn reader buf field0 msg pos size missing =
      ⟨status_type.protocol_error, beDecode buf (pos + (size - W)) W,
        reset_msg, pos, missing, 0⟩ := by
  simp only [eval_read, if_neg hW, if_true]
  simp only [verify_read, fieldReadBE, Nat.lt_irrefl, if_false, if_neg hmm]
  simp [hmm]

/-- Witness for C4: the corrupted scenario buffer `[1, 2, 3, 7]` under the
sum-mod-256 calculator. -/
theorem C4_verify_before_read_mismatch_witness :
    (¬ (4 : Nat) < 1) ∧
    (beDecode [1, 2, 3, 7] (0 + (4 - 1)) 1 ≠
      basic_sum (extract [1, 2, 3, 7] 0 (4 - 1)) % 256 ^ 1) ∧
    eval_read true 1 basic_sum payloadReader [1, 2, 3, 7] 0 [] 0 4 none =
      ⟨status_type.protocol_error, beDecode [1, 2, 3, 7] (0 + (4 - 1)) 1,
        reset_msg, 0, none, 0⟩ :=
  ⟨by decide, by decide,
    C4_verify_before_read_mismatch 1 basic_sum payloadReader [1, 2, 3, 7] 0
      [] 0 4 none (by decide) (by decide)⟩

/-- C9: for every read whose available `size` is smaller than the checksum
field's minimum length `W`, the read fails immediately with
`not_enough_data` — message and cursor untouched, zero inner invocations,
no checksum work — and the missing-size output carries the exact number of
additional bytes required for the chain over a fixed-size-`N` inner layer,
namely `(N + W) - size`. -/
theorem C9_fail_fast_below_min_length (vb : Bool) (W N : Nat)
    (calcFn : List Nat → Nat) (buf : List Nat) (field0 : Nat)
    (msg : List Nat) (pos size : Nat) (h : size < W) :
    read_full (N + W) vb W calcFn (fixedReader N) buf field0 msg pos size
      none =
      ⟨status_type.not_enough_data, field0, msg, pos,
        some (N + W - size), 0⟩ := by
  simp [read_full, eval_read, h]

/-- Witness for C9: the empty buffer under the one-byte checksum field. -/
theorem C9_fail_fast_below_min_length_witness :
    (0 : Nat) < 1 ∧
    read_full (3 + 1) false 1 basic_sum (fixedReader 3) [] 0 [] 0 0 none =
      ⟨status_type.not_enough_data, 0, [], 0, some 4, 0⟩ :=
  ⟨by decide,
    by simpa using
      C9_fail_fast_below_min_length false 1 3 basic_sum [] 0 [] 0 0
        (by decide)⟩

/-- C5: for every valid encoded buffer of a fixed-size-`N` inner payload `P`
(so `L = N + W`) and every `k` with `0 < k < N + W` — in particular for every
`k` below the checksum field width — presenting only the first `L - k` bytes
yields `not_enough_data` with the missing-size output exactly `k`; at
`N = 3`, `W = 1`, `k = 1` this is the scenario "decoding `[1, 2, 3]` with a
1-byte sum-mod-256 checksum returns `not_enough_data` with missing 1". -/
theorem C5_truncated_read_missing_exact (W N k : Nat)
    (calcFn : List Nat → Nat) (P : List Nat) (hP : P.length = N)
    (hk0 : 0 < k) (hkNW : k < N + W) :
    (read_full (N + W) false W calcFn (fixedReader N)
        ((P ++ beBytes W (calcFn P % 256 ^ W)).take (N + W - k)) 0 [] 0
        (N + W - k) none).status = status_type.not_enough_data ∧
    (read_full (N + W) false W calcFn (fixedReader N)
        ((P ++ beBytes W (calcFn P % 256 ^ W)).take (N + W - k)) 0 [] 0
        (N + W - k) none).missing = some k := by
  by_cases hguard : N + W - k < W
  · constructor <;> simp [read_full, eval_read, hguard] <;> omega
  · have hk : N + W - k - W = N - k := by omega
    have hlt : N - k < N := by omega
    constructor <;>
      simp [read_full, eval_read, hguard, read_verify, fixedReader, hk,
        hlt] <;> omega

/-- `eval_update` over the terminal payload layer's updater recomputes the
checksum over the leading `size - W` bytes and overwrites the field region
in place. -/
theorem eval_update_payload (W : Nat) (calcFn : List Nat → Nat)
    (buf : List Nat) (size : Nat) (hW : W ≤ size) :
    eval_update W calcFn payloadUpdater buf 0 size =
      (status_type.success,
        writeBytes buf (size - W)
          (beBytes W (calcFn (extract buf 0 (size - W)) % 256 ^ W)),
        size) := by
  have hrem : size - (size - W) = W := by omega
  have hfin : size - W + W = size := by omega
  simp [eval_update, payloadUpdater, fieldWriteBE, hrem, hfin]

/-- C1: writing any payload `P` through the checksum layer chain
(random-access single-pass write) and reading the produced buffer back with
the default configuration yields status `success`, the message equal to `P`,
the cursor past both payload and checksum, and the checksum field value
recomputed during the read equal to the field value written. -/
theorem C1_round_trip (W : Nat) (calcFn : List Nat → Nat) (P : List Nat) :
    eval_read false W calcFn payloadReader (encodeRA W calcFn P).buf 0 [] 0
        (P.length + W) none =
      ⟨status_type.success, (encodeRA W calcFn P).field, P, P.length + W,
        none, 1⟩ := by
  rw [encodeRA_eq]
  have hsz : P.length + W - W = P.length := by omega
  have hdec : beDecode (P ++ beBytes W (calcFn P % 256 ^ W)) P.length W
      = calcFn P % 256 ^ W := by
    rw [beDecode_append, beDecode_beBytes]
    exact Nat.mod_mod_of_dvd _ dvd_rfl
  have hx : extract (P ++ beBytes W (calcFn P % 256 ^ W)) 0 P.length = P :=
    extract_append_left _ _
  have h := eval_read_after_match W calcFn
    (P ++ beBytes W (calcFn P % 256 ^ W)) 0 (P.length + W) (by omega)
    (by rw [hsz, hdec, hx])
  rw [hsz, hdec, hx] at h
  simpa using h

/-- C3: verify-before-read and the default verify-after-read configuration
produce identical results on every non-corrupted input (one whose stored
trailing checksum matches the calculator over the leading bytes): the two
reads return the very same result, with status `success`, the same final
message contents, and the same final cursor position `size`. -/
theorem C3_policy_equivalence (W : Nat) (calcFn : List Nat → Nat)
    (buf : List Nat) (field0 : Nat) (size : Nat) (hW : W ≤ size)
    (hmatch : beDecode buf (size - W) W =
      calcFn (extract buf 0 (size - W)) % 256 ^ W) :
    eval_read true W calcFn payloadReader buf field0 [] 0 size none =
      eval_read false W calcFn payloadReader buf field0 [] 0 size none ∧
    (eval_read false W calcFn payloadReader buf field0 [] 0 size
      none).status = status_type.success ∧
    (eval_read false W calcFn payloadReader buf field0 [] 0 size none).msg
      = extract buf 0 (size - W) ∧
    (eval_read false W calcFn payloadReader buf field0 [] 0 size none).pos
      = size := by
  rw [eval_read_after_match W calcFn buf field0 size hW hmatch,
    eval_read_before_match W calcFn buf field0 size hW hmatch]
  exact ⟨rfl, rfl, rfl, rfl⟩

/-- Witness for C3: the valid scenario buffer `[1, 2, 3, 6]`. -/
theorem C3_policy_equivalence_witness :
    (1 : Nat) ≤ 4 ∧
    beDecode [1, 2, 3, 6] (4 - 1) 1
      = basic_sum (extract [1, 2, 3, 6] 0 (4 - 1)) % 256 ^ 1 ∧
    (eval_read true 1 basic_sum payloadReader [1, 2, 3, 6] 0 [] 0 4 none =
        eval_read false 1 basic_sum payloadReader [1, 2, 3, 6] 0 [] 0 4
          none ∧
      (eval_read false 1 basic_sum payloadReader [1, 2, 3, 6] 0 [] 0 4
        none).status = status_type.success ∧
      (eval_read false 1 basic_sum payloadReader [1, 2, 3, 6] 0 [] 0 4
        none).msg = extract [1, 2, 3, 6] 0 (4 - 1) ∧
      (eval_read false 1 basic_sum payloadReader [1, 2, 3, 6] 0 [] 0 4
        none).pos = 4) :=
  ⟨by decide, by decide,
    C3_policy_equivalence 1 basic_sum [1, 2, 3, 6] 0 4 (by decide)
      (by decide)⟩

/-- C6: for a fixed payload `P`, the buffer (and hence the checksum value in
its field region) produced by the random-access single-pass write equals the
buffer after the sequential (append-only) write followed by the explicit
update pass over the same region; the decoded checksum field values
coincide. -/
theorem C6_write_path_equivalence (W : Nat) (calcFn : List Nat → Nat)
    (P : List Nat) :
    (eval_update W calcFn payloadUpdater
        (write_internal_output W payloadWriterSeq 0 P (P.length + W)).out 0
        (P.length + W)).2.1 = (encodeRA W calcFn P).buf ∧
    beDecode (eval_update W calcFn payloadUpdater
        (write_internal_output W payloadWriterSeq 0 P (P.length + W)).out 0
        (P.length + W)).2.1 P.length W = (encodeRA W calcFn P).field := by
  rw [seq_write_then_update, encodeRA_eq]
  refine ⟨rfl, ?_⟩
  show beDecode (P ++ beBytes W (calcFn P % 256 ^ W)) P.length W = _
  rw [beDecode_append, beDecode_beBytes]
  exact Nat.mod_mod_of_dvd _ dvd_rfl

/-- C8: the update operation is idempotent — the first update over a
previously written buffer succeeds, and running update a second time over
the same unmodified region returns the identical status, buffer bytes and
cursor position. -/
theorem C8_update_idempotent (W : Nat) (calcFn : List Nat → Nat)
    (buf : List Nat) (size : Nat) (hW : W ≤ size)
    (hlen : buf.length = size) :
    (eval_update W calcFn payloadUpdater buf 0 size).1
      = status_type.success ∧
    eval_update W calcFn payloadUpdater
        (eval_update W calcFn payloadUpdater buf 0 size).2.1 0 size =
      eval_update W calcFn payloadUpdater buf 0 size := by
  have hfin : size - W + W = size := by omega
  have htl : (buf.take (size - W)).length = size - W := by
    simp only [List.length_take, hlen]
    omega
  rw [eval_update_payload W calcFn buf size hW]
  have hb : writeBytes buf (size - W)
      (beBytes W (calcFn (extract buf 0 (size - W)) % 256 ^ W))
      = buf.take (size - W)
        ++ beBytes W (calcFn (extract buf 0 (size - W)) % 256 ^ W) := by
    rw [writeBytes_eq _ _ _ (by rw [length_beBytes]; omega)]
    rw [length_beBytes, hfin, ← hlen, List.drop_length, List.append_nil]
  rw [hb]
  have hx : extract (buf.take (size - W)
        ++ beBytes W (calcFn (extract buf 0 (size - W)) % 256 ^ W)) 0
        (size - W)
      = extract buf 0 (size - W) := by
    have h1 := extract_append_left (buf.take (size - W))
      (beBytes W (calcFn (extract buf 0 (size - W)) % 256 ^ W))
    rw [htl] at h1
    rw [h1]
    simp [extract]
  have hw2 : writeBytes (buf.take (size - W)
        ++ beBytes W (calcFn (extract buf 0 (size - W)) % 256 ^ W))
        (size - W)
        (beBytes W (calcFn (extract buf 0 (size - W)) % 256 ^ W))
      = buf.take (size - W)
        ++ beBytes W (calcFn (extract buf 0 (size - W)) % 256 ^ W) := by
    have h2 := writeBytes_tail (buf.take (size - W))
      (beBytes W (calcFn (extract buf 0 (size - W)) % 256 ^ W))
      (beBytes W (calcFn (extract buf 0 (size - W)) % 256 ^ W)) rfl
    rwa [htl] at h2
  have e2 := eval_update_payload W calcFn
    (buf.take (size - W)
      ++ beBytes W (calcFn (extract buf 0 (size - W)) % 256 ^ W)) size hW
  rw [hx, hw2] at e2
  exact ⟨rfl, e2⟩

/-- Witness for C8: the finalized scenario buffer `[1, 2, 3, 0]` before its
first update. -/
theorem C8_update_idempotent_witness :
    (1 : Nat) ≤ 4 ∧ ([1, 2, 3, 0] : List Nat).length = 4 ∧
    ((eval_update 1 basic_sum payloadUpdater [1, 2, 3, 0] 0 4).1
        = status_type.success ∧
      eval_update 1 basic_sum payloadUpdater
          (eval_update 1 basic_sum payloadUpdater [1, 2, 3, 0] 0 4).2.1 0 4 =
        eval_update 1 basic_sum payloadUpdater [1, 2, 3, 0] 0 4) :=
  ⟨by decide, by decide,
    C8_update_idempotent 1 basic_sum [1, 2, 3, 0] 4 (by decide) (by decide)⟩

/-- C2: for every valid encoded buffer produced by the checksum layer over
the sum-mod-256 calculator, flipping any single bit — whether inside the
checksummed payload region (`i < P.length`) or inside the checksum field
(`i = P.length`) — makes the subsequent read return `protocol_error` with
the message reset to its empty default state. -/
theorem C2_single_bit_flip_protocol_error (P : List Nat)
    (hP : ∀ x ∈ P, x < 256) (i b : Nat) (hi : i < P.length + 1)
    (hb : b < 8) :
    (eval_read false 1 basic_sum payloadReader
        (flipBit (encodeRA 1 basic_sum P).buf i b) 0 [] 0 (P.length + 1)
        none).status = status_type.protocol_error ∧
    (eval_read false 1 basic_sum payloadReader
        (flipBit (encodeRA 1 basic_sum P).buf i b) 0 [] 0 (P.length + 1)
        none).msg = reset_msg := by
  have hEbuf : (encodeRA 1 basic_sum P).buf = P ++ [P.sum % 256] := by
    rw [encodeRA_eq]
    show P ++ beBytes 1 (basic_sum P % 256 ^ 1) = P ++ [P.sum % 256]
    have hv : basic_sum P % 256 ^ 1 = P.sum % 256 := by
      simp [basic_sum]
    rw [hv]
    show P ++ [P.sum % 256 / 256 ^ 0 % 256] = P ++ [P.sum % 256]
    congr 2
    omega
  have hsz : P.length + 1 - 1 = P.length := by omega
  rw [hEbuf]
  rcases Nat.lt_or_ge i P.length with hiP | hiP
  · -- the flipped bit is inside the checksummed payload region
    have hget : (P ++ [P.sum % 256]).getD i 0 = P.getD i 0 := by
      rw [List.getD_append _ _ _ _ hiP]
    have hflip : flipBit (P ++ [P.sum % 256]) i b
        = P.set i (P.getD i 0 ^^^ 2 ^ b) ++ [P.sum % 256] := by
      unfold flipBit
      rw [hget]
      simp [List.set_append, hiP]
    have hlenP' : (P.set i (P.getD i 0 ^^^ 2 ^ b)).length = P.length := by
      simp
    have hdec : beDecode (P.set i (P.getD i 0 ^^^ 2 ^ b)
        ++ [P.sum % 256]) P.length 1 = P.sum % 256 := by
      rw [← hlenP', beDecode_append]
      simp [beDecode]
    have hxt : extract (P.set i (P.getD i 0 ^^^ 2 ^ b)
        ++ [P.sum % 256]) 0 P.length = P.set i (P.getD i 0 ^^^ 2 ^ b) := by
      rw [← hlenP']
      exact extract_append_left _ _
    have hxlt : P.getD i 0 < 256 := by
      apply hP
      rw [List.getD_eq_getElem P 0 hiP]
      exact List.getElem_mem hiP
    have hxor_ne : P.getD i 0 ^^^ 2 ^ b ≠ P.getD i 0 := xor_two_pow_ne _ b
    have hxor_lt : P.getD i 0 ^^^ 2 ^ b < 256 := by
      have h2b : (2 : Nat) ^ b < 2 ^ 8 :=
        Nat.pow_lt_pow_right (by norm_num) hb
      have hx8 : P.getD i 0 < 2 ^ 8 := by norm_num at hxlt ⊢; omega
      have := Nat.xor_lt_two_pow hx8 h2b
      norm_num at this ⊢
      omega
    have hsum := sum_set_add P i (P.getD i 0 ^^^ 2 ^ b) hiP
    have hmm : beDecode (P.set i (P.getD i 0 ^^^ 2 ^ b)
          ++ [P.sum % 256]) (P.length + 1 - 1) 1 ≠
        basic_sum (extract (P.set i (P.getD i 0 ^^^ 2 ^ b)
          ++ [P.sum % 256]) 0 (P.length + 1 - 1)) % 256 ^ 1 := by
      rw [hsz, hdec, hxt]
      simp only [basic_sum, pow_one]
      omega
    have h := eval_read_after_mismatch 1 basic_sum
      (P.set i (P.getD i 0 ^^^ 2 ^ b) ++ [P.sum % 256]) 0 (P.length + 1)
      (by omega) hmm
    rw [hflip, h]
    exact ⟨rfl, rfl⟩
  · -- the flipped bit is inside the checksum field
    have hieq : i = P.length := by omega
    subst hieq
    have hget : (P ++ [P.sum % 256]).getD P.length 0 = P.sum % 256 := by
      simp [List.getD_append_right]
    have hflip : flipBit (P ++ [P.sum % 256]) P.length b
        = P ++ [P.sum % 256 ^^^ 2 ^ b] := by
      unfold flipBit
      rw [hget]
      simp [List.set_append]
    have hdec : beDecode (P ++ [P.sum % 256 ^^^ 2 ^ b]) P.length 1
        = P.sum % 256 ^^^ 2 ^ b := by
      rw [beDecode_append]
      simp [beDecode]
    have hxt : extract (P ++ [P.sum % 256 ^^^ 2 ^ b]) 0 P.length = P :=
      extract_append_left _ _
    have hmm : beDecode (P ++ [P.sum % 256 ^^^ 2 ^ b])
          (P.length + 1 - 1) 1 ≠
        basic_sum (extract (P ++ [P.sum % 256 ^^^ 2 ^ b]) 0
          (P.length + 1 - 1)) % 256 ^ 1 := by
      rw [hsz, hdec, hxt]
      simp only [basic_sum, pow_one]
      have hcollapse : P.sum % 256 % 256 = P.sum % 256 := by omega
      rw [hcollapse]
      exact xor_two_pow_ne (P.sum % 256) b
    have h := eval_read_after_mismatch 1 basic_sum
      (P ++ [P.sum % 256 ^^^ 2 ^ b]) 0 (P.length + 1) (by omega) hmm
    rw [hflip, h]
    exact ⟨rfl, rfl⟩

/-- Witness for C2: flipping bit 0 of payload byte 1 of the encoded scenario
buffer `[1, 2, 3, 6]`. -/
theorem C2_single_bit_flip_protocol_error_witness :
    (∀ x ∈ ([1, 2, 3] : List Nat), x < 256) ∧
    (1 : Nat) < ([1, 2, 3] : List Nat).length + 1 ∧ (0 : Nat) < 8 ∧
    ((eval_read false 1 basic_sum payloadReader
        (flipBit (encodeRA 1 basic_sum [1, 2, 3]).buf 1 0) 0 [] 0
        (([1, 2, 3] : List Nat).length + 1) none).status
        = status_type.protocol_error ∧
      (eval_read false 1 basic_sum payloadReader
        (flipBit (encodeRA 1 basic_sum [1, 2, 3]).buf 1 0) 0 [] 0
        (([1, 2, 3] : List Nat).length + 1) none).msg = reset_msg) :=
  ⟨by decide, by decide, by decide,
    C2_single_bit_flip_protocol_error [1, 2, 3] (by decide) 1 0 (by decide)
      (by decide)⟩

/-- Witness for C5: the scenario instance `P = [1, 2, 3]`, `W = 1`,
`k = 1`. -/
theorem C5_truncated_read_missing_exact_witness :
    ([1, 2, 3] : List Nat).length = 3 ∧ (0 : Nat) < 1 ∧ (1 : Nat) < 3 + 1 ∧
    ((read_full (3 + 1) false 1 basic_sum (fixedReader 3)
        (([1, 2, 3] ++ beBytes 1 (basic_sum [1, 2, 3] % 256 ^ 1)).take
          (3 + 1 - 1)) 0 [] 0 (3 + 1 - 1) none).status =
        status_type.not_enough_data ∧
      (read_full (3 + 1) false 1 basic_sum (fixedReader 3)
        (([1, 2, 3] ++ beBytes 1 (basic_sum [1, 2, 3] % 256 ^ 1)).take
          (3 + 1 - 1)) 0 [] 0 (3 + 1 - 1) none).missing = some 1) :=
  ⟨by decide, by decide, by decide,
    C5_truncated_read_missing_exact 1 3 1 basic_sum [1, 2, 3] (by decide)
      (by decide) (by decide)⟩

end Marshalling

